import Mathlib

/-!
Verification development for the `sumdb` checksum-database server.

The Go source is shallowly embedded below:
* byte strings are `List Nat` with each element `< 256` where it matters;
* the persistent store (`Store` in `store.go`) is an explicit state record `DB`;
  store writes that may fail at the I/O layer carry fault-injection flags so
  that error paths of the coordinator can be exercised;
* the tree engine (`internal/tree/tree.go`) and the coordinator (`sumdb.go`)
  are translated function by function;
* code that lives outside this repository (the `tlog` stored-hash arithmetic,
  the signed-note framing and the Ed25519 primitive) is modelled from the
  specification, with the crypto primitive kept abstract as a structure of
  functions together with the length bounds the format needs.

Loops on naturals that halve their argument are written with an explicit fuel
argument equal to the starting value (a strict upper bound on the number of
iterations, since `log2 n + 1 <= n` for `n >= 1`); this keeps every definition
reducible by the kernel.
-/

deriving instance DecidableEq for Except

namespace Sumdb

/-- A SHA-256 sized hash value: 32 bytes. -/
def Hash : Type := { l : List Nat // l.length = 32 ∧ ∀ b ∈ l, b < 256 }

instance : DecidableEq Hash := by
  unfold Hash
  infer_instance

/-- The all-zero hash, used for the empty tree and for unknown storage indexes. -/
def zeroHash : Hash :=
  ⟨List.replicate 32 0, by
    constructor
    · simp
    · intro b hb
      have := List.eq_of_mem_replicate hb
      omega⟩

/-- An abstract 256-bit hash primitive (SHA-256 in the Go code), carried as a
structure so every theorem below holds for any function with the right shape. -/
structure HashFn where
  sha : List Nat → List Nat
  sha_len : ∀ l, (sha l).length = 32
  sha_lt : ∀ l, ∀ b ∈ sha l, b < 256

/-- Modelled from the spec: the leaf hash `SHA-256(0x00 || record.data)`
(`tlog.RecordHash`, external library). -/
def recordHash (F : HashFn) (data : List Nat) : Hash :=
  ⟨F.sha (0 :: data), F.sha_len _, F.sha_lt _⟩

/-- Modelled from the spec: the interior-node hash `SHA-256(0x01 || left || right)`
(`tlog.NodeHash`, external library). -/
def nodeHash (F : HashFn) (l r : Hash) : Hash :=
  ⟨F.sha (1 :: (l.val ++ r.val)), F.sha_len _, F.sha_lt _⟩

/-- Fuel-driven count of trailing 1-bits; the fuel bounds the iteration count. -/
def trailingOnesGo : Nat → Nat → Nat
  | 0, _ => 0
  | fuel + 1, n => if n % 2 = 1 then 1 + trailingOnesGo fuel (n / 2) else 0

/-- Number of trailing 1-bits in the binary representation of `n`
(`bits.TrailingZeros64(^x)` in the Go library code). -/
def trailingOnes (n : Nat) : Nat := trailingOnesGo n n

/-- Apply `n ↦ 2n+1` `level` times: the first loop of `tlog.StoredHashIndex`. -/
def levelDown : Nat → Nat → Nat
  | 0, n => n
  | l + 1, n => levelDown l (2 * n + 1)

/-- Fuel-driven `n + n/2 + n/4 + ...`: the second loop of `tlog.StoredHashIndex`. -/
def sumShiftsGo : Nat → Nat → Nat
  | 0, _ => 0
  | fuel + 1, n => if n = 0 then 0 else n + sumShiftsGo fuel (n / 2)

def sumShifts (n : Nat) : Nat := sumShiftsGo n n

/-- Modelled from the spec: `tlog.StoredHashIndex(level, n)` (external library),
the canonical storage index of the hash at `(level, n)` in the tiled
transparent-log convention. -/
def storedHashIndex (level n : Nat) : Nat :=
  sumShifts (levelDown level n) + level

/-- `storedHashIndexes` from `internal/tree/tree.go`: the storage indexes for the
hashes produced by `tlog.StoredHashes(id, data, hr)`; index `i` is
`StoredHashIndex(i, id >> i)`. -/
def storedHashIndexes (id : Nat) (count : Nat) : List Nat :=
  (List.range count).map (fun i => storedHashIndex i (id >>> i))

/-- The hash-building loop of `tlog.StoredHashesForRecordHash` (external library):
starting from the record hash, fold in the stored sibling subtree hashes, one per
trailing 1-bit of `id`.  `read` is the store's positional-hash reader. -/
def shList (F : HashFn) (read : Nat → Hash) (id : Nat) : Nat → Nat → Hash → List Hash
  | _, 0, h => [h]
  | i, k + 1, h =>
      h :: shList F read id (i + 1) k
        (nodeHash F (read (storedHashIndex i ((id >>> i) - 1))) h)

/-- Modelled from the spec: `tlog.StoredHashes(id, data, r)` (external library).
Appending record `id` produces `1 + trailingOnes id` hashes: the new leaf hash
followed by the hash of each newly completed interior node. -/
def storedHashes (F : HashFn) (read : Nat → Hash) (id : Nat) (data : List Nat) :
    List Hash :=
  shList F read id 0 (trailingOnes id) (recordHash F data)

/-- A module checksum record (`Record` in `store.go`); the id is the record's
position in `DB.records`. -/
structure Rec where
  path : List Nat
  version : List Nat
  data : List Nat
deriving DecidableEq

/-- Errors surfaced by the embedded store and coordinator operations. -/
inductive Err where
  | lenMismatch
  | writeFail
  | sizeFail
  | dupRecord
  | gomodFail
  | zipFail
deriving DecidableEq

/-- The persistent store state (the `Store` contract of `store.go`): records in
id order, positional hashes keyed by storage index, and the tree size.  The two
`fail*` flags inject I/O failures into the corresponding write operations so
that the coordinator's error handling can be examined; reads never fail. -/
structure DB where
  records : List Rec
  hashes : List (Nat × Hash)
  size : Nat
  failWriteHashes : Bool
  failSetTreeSize : Bool
deriving DecidableEq

/-- `Store.ReadHashes` for one index: unknown indexes yield the zero hash. -/
def readHash (db : DB) (i : Nat) : Hash :=
  match db.hashes.lookup i with
  | some h => h
  | none => zeroHash

/-- `Store.WriteHashes`: upsert the parallel index/hash arrays. -/
def writeHashes (db : DB) (idx : List Nat) (hs : List Hash) : Except Err DB :=
  if db.failWriteHashes then .error .writeFail
  else .ok { db with hashes := List.zip idx hs ++ db.hashes }

/-- `Store.SetTreeSize`. -/
def setTreeSize (db : DB) (n : Nat) : Except Err DB :=
  if db.failSetTreeSize then .error .sizeFail
  else .ok { db with size := n }

/-- `Store.RecordID`: id of the record with the given path and version
(`none` models `ErrNotFound`). -/
def recordID (db : DB) (path version : List Nat) : Option Nat :=
  db.records.findIdx? (fun r => r.path = path ∧ r.version = version)

/-- `Store.AddRecord`: appends and assigns the next sequential id; fails if the
`(path, version)` key is already present. -/
def addRecordStore (db : DB) (r : Rec) : Except Err (Nat × DB) :=
  if (recordID db r.path r.version).isSome then .error .dupRecord
  else .ok (db.records.length, { db with records := db.records ++ [r] })

/-- `tree.AddRecord` from `internal/tree/tree.go`: compute the stored hashes for
record `id`, compute their storage indexes, write them, then advance the tree
size to `id + 1`.  The length-mismatch guard and the early return on an empty
index list are translated as in the source. -/
def treeAddRecord (F : HashFn) (db : DB) (id : Nat) (data : List Nat) :
    Except Err Unit × DB :=
  let hs := storedHashes F (readHash db) id data
  let idx := storedHashIndexes id hs.length
  if idx.length ≠ hs.length then (.error .lenMismatch, db)
  else if idx.length = 0 then (.ok (), db)
  else
    match writeHashes db idx hs with
    | .error e => (.error e, db)
    | .ok db1 =>
      match setTreeSize db1 (id + 1) with
      | .error e => (.error e, db1)
      | .ok db2 => (.ok (), db2)

/-- Fuel-driven base-2 logarithm (`⌊log2 n⌋`, 0 for `n < 2`). -/
def lg2Go : Nat → Nat → Nat
  | 0, _ => 0
  | fuel + 1, n => if 2 ≤ n then 1 + lg2Go fuel (n / 2) else 0

def lg2 (n : Nat) : Nat := lg2Go n n

/-- Exponents of the binary decomposition of `n`, largest first: the maximal
perfect subtrees (left to right) of a tree with `n` leaves. -/
def expsGo : Nat → Nat → List Nat
  | 0, _ => []
  | fuel + 1, n => if n = 0 then [] else lg2 n :: expsGo fuel (n - 2 ^ lg2 n)

def expsDesc (n : Nat) : List Nat := expsGo n n

/-- The stored root of each maximal perfect subtree, left to right; `readLN`
reads the stored hash at `(level, n)`. -/
def rootsAux (readLN : Nat → Nat → Hash) : List Nat → Nat → List Hash
  | [], _ => []
  | a :: rest, off => readLN a (off / 2 ^ a) :: rootsAux readLN rest (off + 2 ^ a)

/-- Fold the right-edge subtree roots into the overall root, rightmost first
(`h = NodeHash(seen[i], h)` from the end of `tlog.subTreeHash`). -/
def foldRoots (F : HashFn) : List Hash → Hash
  | [] => zeroHash
  | [h] => h
  | h :: rest => nodeHash F h (foldRoots F rest)

/-- Modelled from the spec: `tlog.TreeHash(n, r)` (external library) — the
RFC 6962 root of the tree with `n` leaves, combining the right-edge stored
hashes. -/
def tlogTreeHash (F : HashFn) (db : DB) (n : Nat) : Hash :=
  foldRoots F
    (rootsAux (fun level i => readHash db (storedHashIndex level i)) (expsDesc n) 0)

/-- `tree.TreeHash` from `internal/tree/tree.go`: the zero hash for an empty
tree, otherwise the `tlog` root at the current size. -/
def treeTreeHash (F : HashFn) (db : DB) : Hash :=
  if db.size = 0 then zeroHash else tlogTreeHash F db db.size

/-- The upstream module proxy (`internal/proxy`), reduced to its two fetch
operations; each returns the `h1:` hash string as bytes or fails. -/
structure Upstream where
  gomod : List Nat → List Nat → Except Err (List Nat)
  zip : List Nat → List Nat → Except Err (List Nat)

/-- Byte encoding of an ASCII string literal. -/
def bytesOfString (s : String) : List Nat := s.toList.map (fun c => c.toNat)

/-- The record data built by `fetchAndStoreRecord` with
`fmt.Appendf(nil, "%s %s %s\n%s %s/go.mod %s\n", path, version, h1, path, version, h1mod)`. -/
def recDataBytes (path version h1 h1mod : List Nat) : List Nat :=
  path ++ 32 :: (version ++ 32 :: (h1 ++ 10 ::
    (path ++ 32 :: (version ++ bytesOfString "/go.mod" ++ 32 :: (h1mod ++ [10])))))

/-- `fetchAndStoreRecord` from `sumdb.go`: double-check the record id, fetch the
two upstream hashes, build the record, append it to the store and update the
tree hashes.  The state is threaded explicitly; on error the state reached so
far is returned unchanged (the Go code performs no rollback). -/
def fetchAndStoreRecord (F : HashFn) (db : DB) (up : Upstream)
    (path version : List Nat) : Except Err Nat × DB :=
  match recordID db path version with
  | some id => (.ok id, db)
  | none =>
    match up.gomod path version with
    | .error e => (.error e, db)
    | .ok h1mod =>
      match up.zip path version with
      | .error e => (.error e, db)
      | .ok h1 =>
        let rec0 : Rec := ⟨path, version, recDataBytes path version h1 h1mod⟩
        match addRecordStore db rec0 with
        | .error e => (.error e, db)
        | .ok (id, db1) =>
          match treeAddRecord F db1 id rec0.data with
          | (.error e, db2) => (.error e, db2)
          | (.ok _, db2) => (.ok id, db2)

/-- `Lookup` from `sumdb.go`.  The singleflight group only deduplicates
concurrent callers; in this sequential embedding `lookupGroup.Do(key, fn)`
is `fn()`. -/
def lookup (F : HashFn) (db : DB) (up : Upstream) (path version : List Nat) :
    Except Err Nat × DB :=
  match recordID db path version with
  | some id => (.ok id, db)
  | none => fetchAndStoreRecord F db up path version

/-- Fuel-driven little-endian base-10 digits of `n`. -/
def digitsGo : Nat → Nat → List Nat
  | 0, _ => []
  | fuel + 1, n => if n = 0 then [] else n % 10 :: digitsGo fuel (n / 10)

def natDigits (n : Nat) : List Nat := digitsGo n n

/-- Decimal ASCII encoding of a natural (`strconv.FormatInt` for `n ≥ 0`). -/
def natEnc (n : Nat) : List Nat :=
  if n = 0 then [48] else ((natDigits n).map (fun d => d + 48)).reverse

/-- Decimal encoding of an `int64` (`-` prefix for negatives). -/
def intEnc (n : Int) : List Nat :=
  if n < 0 then 45 :: natEnc n.natAbs else natEnc n.toNat

/-- Value of an ASCII digit string (junk bytes map to junk digits; callers
re-encode to check canonicity, as `tlog.ParseTree` does with `FormatInt`). -/
def natDec (cs : List Nat) : Nat :=
  Nat.ofDigits 10 ((cs.map (fun b => b - 48)).reverse)

/-- Parse a canonical non-negative decimal: the digits must re-encode to the
input (`tlog.ParseTree` requires `lines[1] == FormatInt(n, 10)` and `n ≥ 0`,
which also rejects a sign character). -/
def parseCanonicalNat (cs : List Nat) : Option Nat :=
  if natEnc (natDec cs) = cs then some (natDec cs) else none

/-- Byte of the standard base64 alphabet for a sextet. -/
def b64Byte (s : Nat) : Nat :=
  if s < 26 then s + 65
  else if s < 52 then s + 71
  else if s < 62 then s - 4
  else if s = 62 then 43 else 47

/-- Sextet of a base64 alphabet byte. -/
def b64Val (b : Nat) : Option Nat :=
  if 65 ≤ b ∧ b ≤ 90 then some (b - 65)
  else if 97 ≤ b ∧ b ≤ 122 then some (b - 71)
  else if 48 ≤ b ∧ b ≤ 57 then some (b + 4)
  else if b = 43 then some 62
  else if b = 47 then some 63
  else none

/-- Modelled from the spec: standard base64 encoding with `=` padding
(`encoding/base64.StdEncoding`, external library), on byte lists. -/
def b64Encode : List Nat → List Nat
  | [] => []
  | [a] => [b64Byte (a / 4), b64Byte (a % 4 * 16), 61, 61]
  | [a, b] => [b64Byte (a / 4), b64Byte (a % 4 * 16 + b / 16), b64Byte (b % 16 * 4), 61]
  | a :: b :: c :: rest =>
      b64Byte (a / 4) :: b64Byte (a % 4 * 16 + b / 16) ::
      b64Byte (b % 16 * 4 + c / 64) :: b64Byte (c % 64) :: b64Encode rest

/-- Modelled from the spec: standard base64 decoding, inverse of `b64Encode`;
padding is legal only in the final quartet. -/
def b64Decode : List Nat → Option (List Nat)
  | [] => some []
  | c1 :: c2 :: c3 :: c4 :: rest =>
    match b64Val c1, b64Val c2 with
    | some s1, some s2 =>
      if c3 = 61 then
        if c4 = 61 ∧ rest = [] then some [s1 * 4 + s2 / 16] else none
      else
        match b64Val c3 with
        | some s3 =>
          if c4 = 61 then
            if rest = [] then some [s1 * 4 + s2 / 16, s2 % 16 * 16 + s3 / 4] else none
          else
            match b64Val c4 with
            | some s4 =>
              (b64Decode rest).map
                (fun bs => (s1 * 4 + s2 / 16) :: (s2 % 16 * 16 + s3 / 4) ::
                  (s3 % 4 * 64 + s4) :: bs)
            | none => none
        | none => none
    | _, _ => none
  | _ => none

/-- A tree head (`tlog.Tree`): size and root hash. -/
structure Tree where
  n : Int
  hash : Hash
deriving DecidableEq

/-- First line of the formatted tree head. -/
def headerBytes : List Nat := bytesOfString "go.sum database tree"

/-- Modelled from the spec: `tlog.FormatTree` (external library) — the
canonical text `"go.sum database tree\n<N>\n<base64 root>\n"`. -/
def formatTree (t : Tree) : List Nat :=
  headerBytes ++ 10 :: (intEnc t.n ++ 10 :: (b64Encode t.hash.val ++ [10]))

/-- Take bytes up to (excluding) the first occurrence of `stop`. -/
def spanNe (stop : Nat) : List Nat → List Nat × List Nat
  | [] => ([], [])
  | b :: r =>
      if b = stop then ([], b :: r)
      else (b :: (spanNe stop r).1, (spanNe stop r).2)

/-- Modelled from the spec: `tlog.ParseTree` (external library).  Splits off the
first three lines (any remainder is ignored, as `SplitN(text, "\n", 4)` does),
requires the header line, a canonical non-negative decimal size and a base64
root of exactly 32 bytes. -/
def parseTree (bytes : List Nat) : Option Tree :=
  match spanNe 10 bytes with
  | (l0, 10 :: rest1) =>
    if l0 = headerBytes then
      match spanNe 10 rest1 with
      | (l1, 10 :: rest2) =>
        match parseCanonicalNat l1, b64Decode (spanNe 10 rest2).1 with
        | some n, some hb =>
          if h : hb.length = 32 ∧ ∀ b ∈ hb, b < 256 then some ⟨(n : Int), ⟨hb, h⟩⟩
          else none
        | _, _ => none
      | _ => none
    else none
  | _ => none

/-- An Ed25519-style signing primitive, abstracted: a deterministic signature
function and a key-hash function, with the length and byte bounds the note
format relies on.  Verification of `(key, msg, sig)` is `sig = sign key msg`;
the matching verifier holds the same key material. -/
structure Ed where
  sign : Nat → List Nat → List Nat
  khash : Nat → List Nat
  sign_len : ∀ k m, (sign k m).length = 64
  sign_lt : ∀ k m, ∀ b ∈ sign k m, b < 256
  khash_len : ∀ k, (khash k).length = 4
  khash_lt : ∀ k, ∀ b ∈ khash k, b < 256

/-- Key identity for a signer or verifier: server name and key material. -/
structure KeyId where
  name : List Nat
  key : Nat
deriving DecidableEq

/-- UTF-8 bytes of the em dash that opens a signature line. -/
def emDash : List Nat := [226, 128, 148]

/-- Modelled from the spec: `note.Sign` (external library) for a single signer —
the text, a blank separator line, then `"— <name> <base64(keyhash||sig)>\n"`. -/
def noteSign (E : Ed) (sk : KeyId) (text : List Nat) : List Nat :=
  text ++ 10 :: (emDash ++ 32 :: (sk.name ++ 32 ::
    (b64Encode (E.khash sk.key ++ E.sign sk.key text) ++ [10])))

/-- Split a note at the first blank line: the first component ends with the
first newline of the pair, the second is everything after the pair. -/
def splitBlank : List Nat → Option (List Nat × List Nat)
  | [] => none
  | [_] => none
  | b :: c :: rest =>
      if b = 10 ∧ c = 10 then some ([10], rest)
      else (splitBlank (c :: rest)).map (fun p => (b :: p.1, p.2))

/-- Parse one signature line `"— <name> <base64>\n"`, returning the name and
the decoded 68-byte key-hash-plus-signature payload. -/
def parseSigLine (l : List Nat) : Option (List Nat × List Nat) :=
  match l with
  | 226 :: 128 :: 148 :: 32 :: rest =>
    match spanNe 32 rest with
    | (nm, 32 :: rest2) =>
      match spanNe 10 rest2 with
      | (b64part, [10]) =>
        match b64Decode b64part with
        | some bytes => if bytes.length = 68 then some (nm, bytes) else none
        | none => none
      | _ => none
    | _ => none
  | _ => none

/-- Errors of the modelled `note.Open`. -/
inductive OpenErr where
  | malformed
  | unverified
deriving DecidableEq

/-- Modelled from the spec: `note.Open` (external library) against a single
verifier — split text from the signature block, parse the signature line, and
accept when the name, key hash and signature all match the verifier. -/
def noteOpen (E : Ed) (v : KeyId) (msg : List Nat) : Except OpenErr (List Nat) :=
  match splitBlank msg with
  | none => .error .malformed
  | some (text, sigs) =>
    match parseSigLine sigs with
    | none => .error .malformed
    | some (nm, payload) =>
      if nm = v.name ∧ payload.take 4 = E.khash v.key ∧
          payload.drop 4 = E.sign v.key text
      then .ok text
      else .error .unverified

/-- Errors of `VerifyTreeHead` (`ErrVerifyFailed` and `ErrInvalidNote` in
`internal/signer/signer.go`). -/
inductive VErr where
  | verifyFailed
  | invalidNote
deriving DecidableEq

/-- `SignTreeHead` from `internal/signer/signer.go`:
`note.Sign(&note.Note{Text: string(tlog.FormatTree(tree))}, signer)`. -/
def signTreeHead (E : Ed) (sk : KeyId) (t : Tree) : List Nat :=
  noteSign E sk (formatTree t)

/-- `VerifyTreeHead` from `internal/signer/signer.go`: every `note.Open` error
is wrapped in `ErrVerifyFailed`; a tree-parse failure on the opened text is
wrapped in `ErrInvalidNote`. -/
def verifyTreeHead (E : Ed) (v : KeyId) (msg : List Nat) : Except VErr Tree :=
  match noteOpen E v msg with
  | .error _ => .error .verifyFailed
  | .ok txt =>
    match parseTree txt with
    | none => .error .invalidNote
    | some t => .ok t

/-- `Signed` from `sumdb.go`: read the tree size, compute the tree hash and
sign the tree head.  In this embedding the store reads cannot fail, so the
signed note is returned directly. -/
def signedFn (F : HashFn) (E : Ed) (sk : KeyId) (db : DB) : List Nat :=
  signTreeHead E sk ⟨(db.size : Int), treeTreeHash F db⟩

/-- `true` when the byte list contains no two adjacent newline bytes. -/
def noNN : List Nat → Bool
  | [] => true
  | [_] => true
  | a :: b :: rest => if a = 10 ∧ b = 10 then false else noNN (b :: rest)

/-- A concrete hash function for witnesses: 31 zero bytes followed by the byte
sum mod 256 (the theorems hold for every `HashFn`; this one makes them
computable on concrete inputs). -/
def sampleF : HashFn :=
  ⟨fun l => List.replicate 31 0 ++ [l.sum % 256],
   fun l => by simp,
   fun l b hb => by
     simp only [List.mem_append, List.mem_singleton] at hb
     rcases hb with h | h
     · have := List.eq_of_mem_replicate h; omega
     · omega⟩

/-- A concrete signing primitive for witnesses: the all-zero signature and a
key hash determined by the key byte. -/
def sampleEd : Ed :=
  ⟨fun _ _ => List.replicate 64 0,
   fun k => [k % 256, 0, 0, 0],
   fun _ _ => by simp,
   fun _ _ b hb => by have := List.eq_of_mem_replicate hb; omega,
   fun _ => by simp,
   fun k b hb => by
     simp only [List.mem_cons, List.not_mem_nil, or_false] at hb
     rcases hb with h | h | h | h <;> omega⟩

def sampleSigner : KeyId := ⟨bytesOfString "test.example.com", 0⟩

/-- Same name as `sampleSigner` but different key material. -/
def sampleWrongVerifier : KeyId := ⟨bytesOfString "test.example.com", 1⟩

def sampleTree : Tree := ⟨5, zeroHash⟩

/-- An empty, fault-free store. -/
def sampleDB : DB := ⟨[], [], 0, false, false⟩

/-- An upstream whose two fetches always succeed with fixed `h1:` strings. -/
def sampleUp : Upstream :=
  ⟨fun _ _ => .ok (bytesOfString "h1:MOD="), fun _ _ => .ok (bytesOfString "h1:ZIP=")⟩

def samplePath : List Nat := bytesOfString "example.com/new"

def sampleVersion : List Nat := bytesOfString "v1.0.0"

/-- A store holding one committed record for `samplePath`/`sampleVersion`. -/
def sampleDB1 : DB := ⟨[⟨samplePath, sampleVersion, [7]⟩], [], 1, false, false⟩

/-- Empty store whose `WriteHashes` fails (an injected store I/O error). -/
def failWriteDB : DB := ⟨[], [], 0, true, false⟩

/-- Empty store whose `SetTreeSize` fails (an injected store I/O error). -/
def failSizeDB : DB := ⟨[], [], 0, false, true⟩

def c4rec1 : Rec := ⟨bytesOfString "example.com/a", sampleVersion, [1]⟩

def c4rec2 : Rec := ⟨bytesOfString "example.com/b", sampleVersion, [2]⟩

/-- `treeAddRecord` as an `Except` computation, dropping the partial state on
failure; used only to compose fully successful schedules. -/
def treeAddE (F : HashFn) (db : DB) (id : Nat) (data : List Nat) : Except Err DB :=
  match treeAddRecord F db id data with
  | (.error e, _) => .error e
  | (.ok _, db2) => .ok db2

/-- The append sequences of two distinct lookups run back to back, as a
serializing coordinator would: add record, update tree, add record, update
tree. -/
def c4Serial : Except Err DB := do
  let (i1, dbA) ← addRecordStore sampleDB c4rec1
  let dbB ← treeAddE sampleF dbA i1 c4rec1.data
  let (i2, dbC) ← addRecordStore dbB c4rec2
  treeAddE sampleF dbC i2 c4rec2.data

/-- The same two append sequences under an interleaved schedule that nothing
in `sumdb.go` rules out: both `store.AddRecord` calls complete before either
`tree.AddRecord` runs, and the second record's tree update runs first. -/
def c4Interleaved : Except Err DB := do
  let (i1, dbA) ← addRecordStore sampleDB c4rec1
  let (i2, dbB) ← addRecordStore dbA c4rec2
  let dbC ← treeAddE sampleF dbB i2 c4rec2.data
  treeAddE sampleF dbC i1 c4rec1.data

theorem shList_length (F : HashFn) (read : Nat → Hash) (id : Nat) :
    ∀ (k i : Nat) (h : Hash), (shList F read id i k h).length = k + 1 := by
  intro k
  induction k with
  | zero => intro i h; rfl
  | succ k ih => intro i h; simp only [shList, List.length_cons, ih]

theorem storedHashes_length (F : HashFn) (read : Nat → Hash) (id : Nat)
    (data : List Nat) :
    (storedHashes F read id data).length = trailingOnes id + 1 :=
  shList_length F read id (trailingOnes id) 0 (recordHash F data)

theorem storedHashIndexes_length (id count : Nat) :
    (storedHashIndexes id count).length = count := by
  simp [storedHashIndexes]

/-- A successful `tree.AddRecord` writes exactly the computed index/hash pairs
and then sets the size to `id + 1`. -/
theorem treeAddRecord_eq (F : HashFn) (db : DB) (id : Nat) (data : List Nat)
    (hw : db.failWriteHashes = false) (hz : db.failSetTreeSize = false) :
    treeAddRecord F db id data =
      (.ok (), { db with
        hashes :=
          List.zip (storedHashIndexes id (storedHashes F (readHash db) id data).length)
            (storedHashes F (readHash db) id data) ++ db.hashes,
        size := id + 1 }) := by
  have hlen := storedHashes_length F (readHash db) id data
  simp only [treeAddRecord]
  rw [if_neg (by simp [storedHashIndexes_length])]
  rw [if_neg (by simp [storedHashIndexes_length, hlen])]
  simp [writeHashes, hw, setTreeSize, hz]

/-- Claim C1: a successful tree append for record `id` writes exactly
`1 + trailingOnes id` positional hashes, the `i`-th at storage index
`storedHashIndex i (id >>> i)` (the leaf at level 0 and each newly completed
interior node at level `i`), and afterwards sets the tree size to `id + 1`. -/
theorem claim1_append_writes (F : HashFn) (db : DB) (id : Nat) (data : List Nat)
    (hw : db.failWriteHashes = false) (hz : db.failSetTreeSize = false) :
    (storedHashes F (readHash db) id data).length = 1 + trailingOnes id ∧
    (∀ i, i < 1 + trailingOnes id →
      (storedHashIndexes id (1 + trailingOnes id))[i]? =
        some (storedHashIndex i (id >>> i))) ∧
    treeAddRecord F db id data =
      (.ok (), { db with
        hashes :=
          List.zip (storedHashIndexes id (storedHashes F (readHash db) id data).length)
            (storedHashes F (readHash db) id data) ++ db.hashes,
        size := id + 1 }) := by
  refine ⟨?_, ?_, treeAddRecord_eq F db id data hw hz⟩
  · rw [storedHashes_length]; omega
  · intro i hi
    simp [storedHashIndexes, hi]

/-- Claim C1 witness: the append of record 3 on the empty fault-free store. -/
theorem claim1_witness :
    sampleDB.failWriteHashes = false ∧ sampleDB.failSetTreeSize = false ∧
    ((storedHashes sampleF (readHash sampleDB) 3 [9]).length = 1 + trailingOnes 3 ∧
    (∀ i, i < 1 + trailingOnes 3 →
      (storedHashIndexes 3 (1 + trailingOnes 3))[i]? =
        some (storedHashIndex i (3 >>> i))) ∧
    treeAddRecord sampleF sampleDB 3 [9] =
      (.ok (), { sampleDB with
        hashes :=
          List.zip (storedHashIndexes 3 (storedHashes sampleF (readHash sampleDB) 3 [9]).length)
            (storedHashes sampleF (readHash sampleDB) 3 [9]) ++ sampleDB.hashes,
        size := 3 + 1 })) :=
  ⟨rfl, rfl, claim1_append_writes sampleF sampleDB 3 [9] rfl rfl⟩

/-- Claim C10: `storedHashIndexes id count` always has length exactly `count`,
so the `indexes and hashes length mismatch` branch of `tree.AddRecord` is
unreachable: `treeAddRecord` never returns that error. -/
theorem claim10_no_mismatch (id count : Nat) (_hc : 1 ≤ count) :
    (storedHashIndexes id count).length = count ∧
    ∀ (F : HashFn) (db : DB) (data : List Nat),
      (treeAddRecord F db id data).1 ≠ .error .lenMismatch := by
  refine ⟨storedHashIndexes_length id count, ?_⟩
  intro F db data
  simp only [treeAddRecord]
  rw [if_neg (by simp [storedHashIndexes_length])]
  by_cases h0 :
      (storedHashIndexes id (storedHashes F (readHash db) id data).length).length = 0
  · rw [if_pos h0]; simp
  · rw [if_neg h0]
    cases hwf : db.failWriteHashes
    · simp only [writeHashes, hwf, Bool.false_eq_true, if_false]
      cases hzf : db.failSetTreeSize <;> simp [setTreeSize, hzf]
    · simp [writeHashes, hwf]

/-- Claim C10 witness: instantiated at `id = 6`, `count = 1`. -/
theorem claim10_witness :
    1 ≤ 1 ∧
    ((storedHashIndexes 6 1).length = 1 ∧
    ∀ (F : HashFn) (db : DB) (data : List Nat),
      (treeAddRecord F db 6 data).1 ≠ .error .lenMismatch) :=
  ⟨Nat.le_refl 1, claim10_no_mismatch 6 1 (Nat.le_refl 1)⟩

/-- Claim C7: a lookup whose key is already present returns the stored id with
no store mutation and no dependence on the upstream (the upstream is
universally quantified and the returned state is the input state). -/
theorem claim7_fastpath (F : HashFn) (db : DB) (up : Upstream)
    (p v : List Nat) (id : Nat) (h : recordID db p v = some id) :
    lookup F db up p v = (.ok id, db) := by
  simp only [lookup, h]

/-- Claim C7 witness: a second lookup of the committed record in `sampleDB1`. -/
theorem claim7_witness :
    recordID sampleDB1 samplePath sampleVersion = some 0 ∧
    lookup sampleF sampleDB1 sampleUp samplePath sampleVersion = (.ok 0, sampleDB1) :=
  ⟨by decide,
   claim7_fastpath sampleF sampleDB1 sampleUp samplePath sampleVersion 0 (by decide)⟩

/-- Claim C9: a successful lookup of an absent key stores a record whose data
bytes are exactly the two newline-terminated lines
`<path> <version> <h1>\n<path> <version>/go.mod <h1mod>\n`, and returns its
id (the next sequential position). -/
theorem claim9_record_data (F : HashFn) (db : DB) (up : Upstream)
    (p v h1 h1mod : List Nat)
    (hnone : recordID db p v = none)
    (hg : up.gomod p v = .ok h1mod) (hz : up.zip p v = .ok h1)
    (hw : db.failWriteHashes = false) (hs : db.failSetTreeSize = false) :
    (lookup F db up p v).1 = .ok db.records.length ∧
    (lookup F db up p v).2.records =
      db.records ++ [⟨p, v, recDataBytes p v h1 h1mod⟩] := by
  have hadd : addRecordStore db ⟨p, v, recDataBytes p v h1 h1mod⟩ =
      .ok (db.records.length,
        { db with records := db.records ++ [⟨p, v, recDataBytes p v h1 h1mod⟩] }) := by
    simp [addRecordStore, hnone]
  have htree := treeAddRecord_eq F
    { db with records := db.records ++ [⟨p, v, recDataBytes p v h1 h1mod⟩] }
    db.records.length (recDataBytes p v h1 h1mod) hw hs
  constructor <;> simp only [lookup, fetchAndStoreRecord, hnone, hg, hz, hadd, htree]

/-- Claim C9 witness: lookup of `example.com/new@v1.0.0` on the empty store
with fixed upstream hashes. -/
theorem claim9_witness :
    (lookup sampleF sampleDB sampleUp samplePath sampleVersion).1 = .ok 0 ∧
    (lookup sampleF sampleDB sampleUp samplePath sampleVersion).2.records =
      [⟨samplePath, sampleVersion,
        recDataBytes samplePath sampleVersion
          (bytesOfString "h1:ZIP=") (bytesOfString "h1:MOD=")⟩] :=
  claim9_record_data sampleF sampleDB sampleUp samplePath sampleVersion
    (bytesOfString "h1:ZIP=") (bytesOfString "h1:MOD=")
    (by decide) rfl rfl rfl rfl

/-- Claim C2 (refuted behaviour, documenting the bug): the coordinator never
wraps the append sequence in a store transaction, so when `SetTreeSize` fails
after `AddRecord` and `WriteHashes` succeeded, the mutations are not rolled
back: the lookup errors while the record and its hashes remain visible and the
tree size was never advanced. -/
theorem claim2_no_transactional_rollback :
    (lookup sampleF failSizeDB sampleUp samplePath sampleVersion).1 =
      .error .sizeFail ∧
    (lookup sampleF failSizeDB sampleUp samplePath sampleVersion).2.records.length = 1 ∧
    (lookup sampleF failSizeDB sampleUp samplePath sampleVersion).2.hashes ≠ [] ∧
    (lookup sampleF failSizeDB sampleUp samplePath sampleVersion).2.size = 0 := by
  decide

/-- Claim C3 (refuted behaviour, documenting the bug): when the tree-hash step
fails after `AddRecord` succeeded, the lookup returns an error but the stored
record is left behind — the log is not unchanged. -/
theorem claim3_error_leaves_record :
    (lookup sampleF failWriteDB sampleUp samplePath sampleVersion).1 =
      .error .writeFail ∧
    (lookup sampleF failWriteDB sampleUp samplePath sampleVersion).2.records =
      [⟨samplePath, sampleVersion,
        recDataBytes samplePath sampleVersion
          (bytesOfString "h1:ZIP=") (bytesOfString "h1:MOD=")⟩] ∧
    (lookup sampleF failWriteDB sampleUp samplePath sampleVersion).2.size = 0 := by
  decide

/-- Claim C4 (refuted behaviour, documenting the bug): nothing serializes the
append sequences of two distinct keys, and an interleaved schedule of the very
store operations `fetchAndStoreRecord` performs runs to completion with a
result that differs from the serialized schedule: the hash stored for the
first interior node differs, and the final tree size regresses to 1 instead of
reaching 2. -/
theorem claim4_interleaving_diverges :
    Except.map (fun db => readHash db (storedHashIndex 1 0)) c4Interleaved ≠
      Except.map (fun db => readHash db (storedHashIndex 1 0)) c4Serial ∧
    Except.map DB.size c4Interleaved = .ok 1 ∧
    Except.map DB.size c4Serial = .ok 2 := by
  decide

theorem digitsGo_sound : ∀ fuel n, n ≤ fuel → Nat.ofDigits 10 (digitsGo fuel n) = n := by
  intro fuel
  induction fuel with
  | zero => intro n hn; interval_cases n; rfl
  | succ fuel ih =>
    intro n hn
    by_cases h0 : n = 0
    · simp [digitsGo, h0]
    · have hdiv : n / 10 ≤ fuel := by
        have : n / 10 < n := Nat.div_lt_self (by omega) (by omega)
        omega
      simp only [digitsGo, h0, if_false]
      rw [Nat.ofDigits_cons, ih (n / 10) hdiv]
      omega

theorem natDec_natEnc (n : Nat) : natDec (natEnc n) = n := by
  by_cases h0 : n = 0
  · simp [natEnc, natDec, h0, Nat.ofDigits]
  · simp only [natEnc, h0, if_false, natDec, List.map_reverse, List.reverse_reverse,
      List.map_map]
    have : ((fun b => b - 48) ∘ fun d => d + 48) = id := by
      funext d; simp
    rw [this, List.map_id]
    exact digitsGo_sound n n (Nat.le_refl n)

theorem parseCanonicalNat_natEnc (n : Nat) : parseCanonicalNat (natEnc n) = some n := by
  simp [parseCanonicalNat, natDec_natEnc]

theorem natEnc_ne_ten (n : Nat) : ∀ b ∈ natEnc n, ¬ b = 10 := by
  intro b hb
  by_cases h0 : n = 0
  · simp [natEnc, h0] at hb; omega
  · simp only [natEnc, h0, if_false, List.mem_reverse, List.mem_map] at hb
    obtain ⟨d, _, hd⟩ := hb
    omega

theorem natEnc_ne_nil (n : Nat) : natEnc n ≠ [] := by
  by_cases h0 : n = 0
  · simp [natEnc, h0]
  · simp only [natEnc, h0, if_false, ne_eq, List.reverse_eq_nil_iff, List.map_eq_nil_iff]
    cases hn : n with
    | zero => omega
    | succ m =>
      simp only [natDigits, digitsGo]
      simp [hn] at h0 ⊢

theorem b64Byte_spec :
    ∀ s : Fin 64, b64Val (b64Byte s.val) = some s.val ∧
      ¬ b64Byte s.val = 10 ∧ ¬ b64Byte s.val = 61 := by
  decide

theorem b64Val_b64Byte (s : Nat) (h : s < 64) : b64Val (b64Byte s) = some s :=
  (b64Byte_spec ⟨s, h⟩).1

theorem b64Byte_ne_ten (s : Nat) (h : s < 64) : ¬ b64Byte s = 10 :=
  (b64Byte_spec ⟨s, h⟩).2.1

theorem b64Byte_ne_pad (s : Nat) (h : s < 64) : ¬ b64Byte s = 61 :=
  (b64Byte_spec ⟨s, h⟩).2.2

theorem b64_roundtrip : ∀ l, (∀ b ∈ l, b < 256) → b64Decode (b64Encode l) = some l := by
  intro l
  induction l using b64Encode.induct with
  | case1 => intro _; rfl
  | case2 a =>
    intro hlt
    have ha : a < 256 := hlt a (by simp)
    simp only [b64Encode, b64Decode,
      b64Val_b64Byte (a / 4) (by omega), b64Val_b64Byte (a % 4 * 16) (by omega)]
    simp only [and_self, if_true]
    have : a / 4 * 4 + a % 4 * 16 / 16 = a := by omega
    rw [this]
  | case3 a b =>
    intro hlt
    have ha : a < 256 := hlt a (by simp)
    have hb : b < 256 := hlt b (by simp)
    simp only [b64Encode, b64Decode,
      b64Val_b64Byte (a / 4) (by omega),
      b64Val_b64Byte (a % 4 * 16 + b / 16) (by omega)]
    rw [if_neg (b64Byte_ne_pad (b % 16 * 4) (by omega))]
    simp only [b64Val_b64Byte (b % 16 * 4) (by omega)]
    simp only [and_self, if_true]
    have h1 : a / 4 * 4 + (a % 4 * 16 + b / 16) / 16 = a := by omega
    have h2 : (a % 4 * 16 + b / 16) % 16 * 16 + b % 16 * 4 / 4 = b := by omega
    rw [h1, h2]
  | case4 a b c rest ih =>
    intro hlt
    have ha : a < 256 := hlt a (by simp)
    have hb : b < 256 := hlt b (by simp)
    have hc : c < 256 := hlt c (by simp)
    have hrest : ∀ x ∈ rest, x < 256 := by
      intro x hx; exact hlt x (by simp [hx])
    simp only [b64Encode, List.cons_append, b64Decode,
      b64Val_b64Byte (a / 4) (by omega),
      b64Val_b64Byte (a % 4 * 16 + b / 16) (by omega)]
    rw [if_neg (b64Byte_ne_pad (b % 16 * 4 + c / 64) (by omega))]
    simp only [b64Val_b64Byte (b % 16 * 4 + c / 64) (by omega)]
    rw [if_neg (b64Byte_ne_pad (c % 64) (by omega))]
    simp only [b64Val_b64Byte (c % 64) (by omega), ih hrest, Option.map_some]
    have h1 : a / 4 * 4 + (a % 4 * 16 + b / 16) / 16 = a := by omega
    have h2 : (a % 4 * 16 + b / 16) % 16 * 16 + (b % 16 * 4 + c / 64) / 4 = b := by omega
    have h3 : (b % 16 * 4 + c / 64) % 4 * 64 + c % 64 = c := by omega
    rw [h1, h2, h3]
    rfl

theorem b64Encode_ne_ten : ∀ l, (∀ b ∈ l, b < 256) → ∀ x ∈ b64Encode l, ¬ x = 10 := by
  intro l
  induction l using b64Encode.induct with
  | case1 => intro _ x hx; simp [b64Encode] at hx
  | case2 a =>
    intro hlt x hx
    have ha : a < 256 := hlt a (by simp)
    simp only [b64Encode, List.mem_cons, List.not_mem_nil, or_false] at hx
    rcases hx with h | h | h | h
    · exact h ▸ b64Byte_ne_ten (a / 4) (by omega)
    · exact h ▸ b64Byte_ne_ten (a % 4 * 16) (by omega)
    · omega
    · omega
  | case3 a b =>
    intro hlt x hx
    have ha : a < 256 := hlt a (by simp)
    have hb : b < 256 := hlt b (by simp)
    simp only [b64Encode, List.mem_cons, List.not_mem_nil, or_false] at hx
    rcases hx with h | h | h | h
    · exact h ▸ b64Byte_ne_ten (a / 4) (by omega)
    · exact h ▸ b64Byte_ne_ten (a % 4 * 16 + b / 16) (by omega)
    · exact h ▸ b64Byte_ne_ten (b % 16 * 4) (by omega)
    · omega
  | case4 a b c rest ih =>
    intro hlt x hx
    have ha : a < 256 := hlt a (by simp)
    have hb : b < 256 := hlt b (by simp)
    have hc : c < 256 := hlt c (by simp)
    have hrest : ∀ y ∈ rest, y < 256 := by
      intro y hy; exact hlt y (by simp [hy])
    simp only [b64Encode, List.mem_cons] at hx
    rcases hx with h | h | h | h | h
    · exact h ▸ b64Byte_ne_ten (a / 4) (by omega)
    · exact h ▸ b64Byte_ne_ten (a % 4 * 16 + b / 16) (by omega)
    · exact h ▸ b64Byte_ne_ten (b % 16 * 4 + c / 64) (by omega)
    · exact h ▸ b64Byte_ne_ten (c % 64) (by omega)
    · exact ih hrest x h

theorem b64Encode_ne_nil : ∀ l, l ≠ [] → b64Encode l ≠ [] := by
  intro l hl
  match l with
  | [] => exact absurd rfl hl
  | [a] => simp [b64Encode]
  | [a, b] => simp [b64Encode]
  | a :: b :: c :: rest => simp [b64Encode]

theorem spanNe_app (stop : Nat) :
    ∀ xs, (∀ x ∈ xs, ¬ x = stop) → ∀ rest,
      spanNe stop (xs ++ stop :: rest) = (xs, stop :: rest) := by
  intro xs
  induction xs with
  | nil => intro _ rest; simp [spanNe]
  | cons a t ih =>
    intro hx rest
    have ha : ¬ a = stop := hx a (by simp)
    have ht := ih (fun x hxt => hx x (by simp [hxt])) rest
    simp only [List.cons_append, spanNe, ha, if_false, List.append_eq, ht]

theorem noNN_glue0 :
    ∀ A B, (∀ b ∈ A, ¬ b = 10) → A ≠ [] → noNN (10 :: B) = true →
      noNN (A ++ 10 :: B) = true := by
  intro A
  induction A with
  | nil => intro B _ hne _; exact absurd rfl hne
  | cons a t ih =>
    intro B hA _ hB
    have ha : ¬ a = 10 := hA a (by simp)
    cases t with
    | nil =>
      simpa [noNN, ha] using hB
    | cons b t2 =>
      have hrec := ih B (fun x hx => hA x (by simp [hx])) (by simp) hB
      simpa [noNN, ha] using hrec

theorem noNN_glue :
    ∀ A B, (∀ b ∈ A, ¬ b = 10) → A ≠ [] → noNN (10 :: B) = true →
      noNN (10 :: (A ++ 10 :: B)) = true := by
  intro A B hA hne hB
  cases A with
  | nil => exact absurd rfl hne
  | cons a t =>
    have ha : ¬ a = 10 := hA a (by simp)
    have := noNN_glue0 (a :: t) B hA (by simp) hB
    simpa [noNN, ha] using this

theorem splitBlank_app :
    ∀ u, noNN (u ++ [10]) = true → ∀ rest,
      splitBlank (u ++ 10 :: 10 :: rest) = some (u ++ [10], rest) := by
  intro u
  induction u with
  | nil => intro _ rest; rfl
  | cons a t ih =>
    intro hnn rest
    cases t with
    | nil =>
      have ha : ¬ a = 10 := by
        intro h; rw [h] at hnn; simp [noNN] at hnn
      simp [splitBlank, ha]
    | cons b t2 =>
      have hrec : noNN ((b :: t2) ++ [10]) = true := by
        by_cases hab : a = 10 ∧ b = 10
        · exfalso
          simp only [List.cons_append, noNN, hab, if_true] at hnn
          exact Bool.false_ne_true hnn
        · simpa [noNN, hab] using hnn
      have hab : ¬ (a = 10 ∧ b = 10) := by
        intro h
        simp only [List.cons_append, noNN, h, and_self, if_true] at hnn
        exact Bool.false_ne_true hnn
      simp only [List.cons_append, splitBlank, hab, if_false, List.append_eq]
      rw [← List.cons_append]
      rw [ih hrec rest]
      rfl

theorem parseSigLine_mk (name payload : List Nat)
    (hname : ∀ b ∈ name, ¬ b = 32 ∧ ¬ b = 10)
    (hlen : payload.length = 68) (hlt : ∀ b ∈ payload, b < 256) :
    parseSigLine (emDash ++ 32 :: (name ++ 32 :: (b64Encode payload ++ [10]))) =
      some (name, payload) := by
  have hspan1 :=
    spanNe_app 32 name (fun x hx => (hname x hx).1) (b64Encode payload ++ [10])
  have hspan2 := spanNe_app 10 (b64Encode payload) (b64Encode_ne_ten payload hlt) []
  simp only [emDash, List.cons_append, List.nil_append, parseSigLine, hspan1, hspan2,
    b64_roundtrip payload hlt, hlen, if_true]

theorem noteOpen_noteSign (E : Ed) (sk v : KeyId) (u : List Nat)
    (hnn : noNN (u ++ [10]) = true)
    (hvn : v.name = sk.name) (hvk : v.key = sk.key)
    (hname : ∀ b ∈ sk.name, ¬ b = 32 ∧ ¬ b = 10) :
    noteOpen E v (noteSign E sk (u ++ [10])) = .ok (u ++ [10]) := by
  have hplen : (E.khash sk.key ++ E.sign sk.key (u ++ [10])).length = 68 := by
    simp [E.khash_len, E.sign_len]
  have hplt : ∀ b ∈ E.khash sk.key ++ E.sign sk.key (u ++ [10]), b < 256 := by
    intro b hb
    rcases List.mem_append.mp hb with h | h
    · exact E.khash_lt _ b h
    · exact E.sign_lt _ _ b h
  have hsig := parseSigLine_mk sk.name
    (E.khash sk.key ++ E.sign sk.key (u ++ [10])) hname hplen hplt
  have hmsg : noteSign E sk (u ++ [10]) =
      u ++ 10 :: 10 :: (emDash ++ 32 :: (sk.name ++ 32 ::
        (b64Encode (E.khash sk.key ++ E.sign sk.key (u ++ [10])) ++ [10]))) := by
    simp [noteSign, List.append_assoc]
  have hsplit := splitBlank_app u hnn
    (emDash ++ 32 :: (sk.name ++ 32 ::
      (b64Encode (E.khash sk.key ++ E.sign sk.key (u ++ [10])) ++ [10])))
  have htake : (E.khash sk.key ++ E.sign sk.key (u ++ [10])).take 4 = E.khash sk.key := by
    rw [show 4 = (E.khash sk.key).length from (E.khash_len sk.key).symm]
    exact List.take_left _ _
  have hdrop : (E.khash sk.key ++ E.sign sk.key (u ++ [10])).drop 4 =
      E.sign sk.key (u ++ [10]) := by
    rw [show 4 = (E.khash sk.key).length from (E.khash_len sk.key).symm]
    exact List.drop_left _ _
  simp only [noteOpen, hmsg, hsplit, hsig, hvn, hvk, htake, hdrop, and_self, if_true]

theorem headerBytes_ne_ten : ∀ b ∈ headerBytes, ¬ b = 10 := by decide

theorem parseTree_formatTree (t : Tree) (hn : 0 ≤ t.n) :
    parseTree (formatTree t) = some t := by
  have hint : intEnc t.n = natEnc t.n.toNat := by
    simp [intEnc, not_lt.mpr hn]
  have hspan1 := spanNe_app 10 headerBytes headerBytes_ne_ten
    (natEnc t.n.toNat ++ 10 :: (b64Encode t.hash.val ++ [10]))
  have hspan2 := spanNe_app 10 (natEnc t.n.toNat) (natEnc_ne_ten t.n.toNat)
    (b64Encode t.hash.val ++ [10])
  have hlt : ∀ b ∈ t.hash.val, b < 256 := t.hash.property.2
  have hspan3 := spanNe_app 10 (b64Encode t.hash.val)
    (b64Encode_ne_ten t.hash.val hlt) []
  simp only [formatTree, hint, parseTree, hspan1, hspan2, hspan3, if_true,
    parseCanonicalNat_natEnc, b64_roundtrip t.hash.val hlt]
  rw [dif_pos t.hash.property]
  have : ((t.n.toNat : Int)) = t.n := Int.toNat_of_nonneg hn
  simp [this]

/-- Shared round-trip helper: verifying a signed tree head with the matching
verifier recovers the tree exactly. -/
theorem verify_sign_eq (E : Ed) (sk : KeyId) (t : Tree)
    (hname : ∀ b ∈ sk.name, ¬ b = 32 ∧ ¬ b = 10) (hn : 0 ≤ t.n) :
    verifyTreeHead E ⟨sk.name, sk.key⟩ (signTreeHead E sk t) = .ok t := by
  have hint : intEnc t.n = natEnc t.n.toNat := by simp [intEnc, not_lt.mpr hn]
  have hb64lt : ∀ b ∈ t.hash.val, b < 256 := t.hash.property.2
  have hvalnil : t.hash.val ≠ [] := by
    intro h
    have h32 := t.hash.property.1
    rw [h] at h32
    simp at h32
  have h3 : noNN (10 :: (b64Encode t.hash.val ++ 10 :: [])) = true :=
    noNN_glue _ _ (b64Encode_ne_ten _ hb64lt) (b64Encode_ne_nil _ hvalnil) rfl
  have h2 : noNN (10 :: (natEnc t.n.toNat ++ 10 ::
      (b64Encode t.hash.val ++ [10]))) = true :=
    noNN_glue _ _ (natEnc_ne_ten _) (natEnc_ne_nil _) h3
  have h1 : noNN ((headerBytes ++ 10 ::
      (natEnc t.n.toNat ++ 10 :: b64Encode t.hash.val)) ++ [10]) = true := by
    have heq : (headerBytes ++ 10 ::
        (natEnc t.n.toNat ++ 10 :: b64Encode t.hash.val)) ++ [10] =
        headerBytes ++ 10 :: (natEnc t.n.toNat ++ 10 ::
          (b64Encode t.hash.val ++ [10])) := by
      simp [List.append_assoc]
    rw [heq]
    exact noNN_glue0 _ _ headerBytes_ne_ten (by decide) h2
  have hform : formatTree t =
      (headerBytes ++ 10 :: (natEnc t.n.toNat ++ 10 :: b64Encode t.hash.val)) ++ [10] := by
    simp [formatTree, hint, List.append_assoc]
  have hopen := noteOpen_noteSign E sk ⟨sk.name, sk.key⟩
    (headerBytes ++ 10 :: (natEnc t.n.toNat ++ 10 :: b64Encode t.hash.val))
    h1 rfl rfl hname
  have hparse := parseTree_formatTree t hn
  simp only [verifyTreeHead, signTreeHead, hform, hopen]
  rw [← hform, hparse]

/-- Claim C5: for every tree head `t` with `N ≥ 0`, verifying the note produced
by `SignTreeHead` with the matching verifier succeeds and returns exactly `t`. -/
theorem claim5_sign_verify_roundtrip (E : Ed) (sk : KeyId) (t : Tree)
    (hname : ∀ b ∈ sk.name, ¬ b = 32 ∧ ¬ b = 10) (hn : 0 ≤ t.n) :
    verifyTreeHead E ⟨sk.name, sk.key⟩ (signTreeHead E sk t) = .ok t :=
  verify_sign_eq E sk t hname hn

/-- Claim C5 witness: the concrete tree head `(5, zeroHash)` under the sample
signer. -/
theorem claim5_witness :
    (∀ b ∈ sampleSigner.name, ¬ b = 32 ∧ ¬ b = 10) ∧ 0 ≤ sampleTree.n ∧
    verifyTreeHead sampleEd ⟨sampleSigner.name, sampleSigner.key⟩
      (signTreeHead sampleEd sampleSigner sampleTree) = .ok sampleTree :=
  ⟨by decide, by decide,
   claim5_sign_verify_roundtrip sampleEd sampleSigner sampleTree (by decide) (by decide)⟩

/-- Claim C6 counterexample: a structurally malformed input (not a well-formed
signed note) is reported as `VERIFY_FAILED`, not as `INVALID_NOTE` as the claim
states — `VerifyTreeHead` wraps every `note.Open` error in `ErrVerifyFailed`. -/
theorem claim6_counterexample :
    verifyTreeHead sampleEd sampleSigner (bytesOfString "not a valid note") =
      .error .verifyFailed ∧
    verifyTreeHead sampleEd sampleSigner (bytesOfString "not a valid note") ≠
      .error .invalidNote := by
  decide

/-- Claim C6 (amended): every `note.Open` failure — malformed note or
unverified signature — yields `VERIFY_FAILED`; `INVALID_NOTE` is returned
exactly when the note opens but its text does not parse as a tree. -/
theorem claim6_error_mapping (E : Ed) (v : KeyId) (msg : List Nat) :
    (noteOpen E v msg = .error .malformed →
      verifyTreeHead E v msg = .error .verifyFailed) ∧
    (noteOpen E v msg = .error .unverified →
      verifyTreeHead E v msg = .error .verifyFailed) ∧
    (∀ txt, noteOpen E v msg = .ok txt → parseTree txt = none →
      verifyTreeHead E v msg = .error .invalidNote) := by
  refine ⟨fun h => ?_, fun h => ?_, fun txt h hp => ?_⟩
  · simp [verifyTreeHead, h]
  · simp [verifyTreeHead, h]
  · simp [verifyTreeHead, h, hp]

/-- Claim C6 witness: the three branches at concrete inputs — garbage bytes,
a note signed under a different key, and a well-formed note whose text is not
a tree. -/
theorem claim6_witness :
    verifyTreeHead sampleEd sampleSigner (bytesOfString "not a valid note") =
      .error .verifyFailed ∧
    verifyTreeHead sampleEd sampleWrongVerifier
      (signTreeHead sampleEd sampleSigner sampleTree) = .error .verifyFailed ∧
    verifyTreeHead sampleEd sampleSigner (noteSign sampleEd sampleSigner [120, 10]) =
      .error .invalidNote :=
  ⟨(claim6_error_mapping sampleEd sampleSigner _).1 (by decide),
   (claim6_error_mapping sampleEd sampleWrongVerifier _).2.1 (by decide),
   (claim6_error_mapping sampleEd sampleSigner _).2.2 [120, 10] (by decide) (by decide)⟩

/-- Claim C8: for every store state, `Signed` returns a note whose verified
parse is `(N, root)` with `N` the store's tree size and `root` the tree hash of
the stored hashes; when `N = 0` the root is the zero hash. -/
theorem claim8_signed_head (F : HashFn) (E : Ed) (sk : KeyId) (db : DB)
    (hname : ∀ b ∈ sk.name, ¬ b = 32 ∧ ¬ b = 10) :
    verifyTreeHead E ⟨sk.name, sk.key⟩ (signedFn F E sk db) =
      .ok ⟨(db.size : Int), treeTreeHash F db⟩ ∧
    (db.size = 0 → treeTreeHash F db = zeroHash) := by
  constructor
  · exact verify_sign_eq E sk ⟨(db.size : Int), treeTreeHash F db⟩ hname
      (Int.natCast_nonneg _)
  · intro h
    simp [treeTreeHash, h]

/-- Claim C8 witness: the empty store signs `(0, zeroHash)` and the note
verifies back to it. -/
theorem claim8_witness :
    (∀ b ∈ sampleSigner.name, ¬ b = 32 ∧ ¬ b = 10) ∧
    (verifyTreeHead sampleEd ⟨sampleSigner.name, sampleSigner.key⟩
      (signedFn sampleF sampleEd sampleSigner sampleDB) =
        .ok ⟨(sampleDB.size : Int), treeTreeHash sampleF sampleDB⟩ ∧
    (sampleDB.size = 0 → treeTreeHash sampleF sampleDB = zeroHash)) :=
  ⟨by decide, claim8_signed_head sampleF sampleEd sampleSigner sampleDB (by decide)⟩

end Sumdb
